import Mathlib

/-!
Verification development for the minimum-distance tracking subsystem
exercised by `ipython_examples/TrackMinDistance.ipynb`.

The repository ships only the demonstration notebook; the tracking operator
itself lives in the external library the notebook calls.  Following the
design-level specification, the subsystem is therefore modelled here from
the spec: particles carry a string-keyed parameter store with the reserved
keys `min_distance`, `min_distance_from` and `min_distance_orbit`; an
external integrator advances positions and velocities; after every accepted
sub-step the tracker recomputes each tracked particle's distance to its
reference body and conditionally updates the stored minimum and the
osculating-orbit snapshot.

Coordinates, masses and times are modelled by rationals so that the whole
machine is executable and decidable.  Euclidean distance is an irrational
observable, so the stored minimum is kept as its square
(`min_distance_sq`); the spec's `min_distance` value is `Real.sqrt` of the
stored square (see `Params.min_distance`), and since `Real.sqrt` is a
strictly monotone bijection on nonnegatives this encoding is faithful:
every comparison of distances coincides with the comparison of their
squares, which the bridging theorems below make explicit.
-/

namespace TrackMinDist

/-- Modelled from the spec: a position or velocity vector (x, y, z), with
rational components standing in for the engine's machine reals. -/
structure Vec3 where
  x : ℚ
  y : ℚ
  z : ℚ
deriving DecidableEq

/-- Componentwise difference of two vectors. -/
def Vec3.sub (p q : Vec3) : Vec3 := ⟨p.x - q.x, p.y - q.y, p.z - q.z⟩

/-- Scalar rescaling of a vector (used by the notebook when it divides a
particle's coordinates by 3). -/
def Vec3.smul (c : ℚ) (p : Vec3) : Vec3 := ⟨c * p.x, c * p.y, c * p.z⟩

/-- Squared euclidean norm. -/
def Vec3.normSq (p : Vec3) : ℚ := p.x ^ 2 + p.y ^ 2 + p.z ^ 2

/-- Dot product. -/
def Vec3.dot (p q : Vec3) : ℚ := p.x * q.x + p.y * q.y + p.z * q.z

/-- Cross product. -/
def Vec3.cross (p q : Vec3) : Vec3 :=
  ⟨p.y * q.z - p.z * q.y, p.z * q.x - p.x * q.z, p.x * q.y - p.y * q.x⟩

/-- Squared euclidean distance between two positions. -/
def distSq (p q : Vec3) : ℚ := (p.sub q).normSq

/-- Modelled from the spec: `euclidean_distance(particle.position,
reference.position)`, the real-valued distance observable. -/
noncomputable def dist (p q : Vec3) : ℝ := Real.sqrt ((distSq p q : ℚ) : ℝ)

/-- Modelled from the spec (glossary): an osculating-orbit snapshot.  The
osculating orbit is "the instantaneous two-body Keplerian orbit that
matches a particle's current position and velocity relative to a reference
body", so it is exactly determined by the gravitational parameter `mu` and
the relative state vectors `rvec`, `vvec` recorded at the snapshot; the
spec's six elements (semi-major axis, eccentricity, inclination, node,
argument of pericenter, true anomaly) are derived observables of this data
(`Orbit.a`, `Orbit.e`, ... below for the two the claims consult). -/
structure Orbit where
  mu : ℚ
  rvec : Vec3
  vvec : Vec3
deriving DecidableEq

/-- Distance from the reference body at the snapshot. -/
noncomputable def Orbit.rmag (o : Orbit) : ℝ := Real.sqrt ((o.rvec.normSq : ℚ) : ℝ)

/-- Specific orbital energy at the snapshot. -/
noncomputable def Orbit.energy (o : Orbit) : ℝ :=
  ((o.vvec.normSq : ℚ) : ℝ) / 2 - ((o.mu : ℚ) : ℝ) / o.rmag

/-- Squared specific angular momentum at the snapshot (rational). -/
def Orbit.angmomSq (o : Orbit) : ℚ := (o.rvec.cross o.vvec).normSq

/-- Semi-major axis of the osculating orbit. -/
noncomputable def Orbit.a (o : Orbit) : ℝ := -((o.mu : ℚ) : ℝ) / (2 * o.energy)

/-- Squared eccentricity of the osculating orbit, from the vis-viva
relation `e^2 = 1 + 2 E h^2 / mu^2`. -/
noncomputable def Orbit.eSq (o : Orbit) : ℝ :=
  1 + 2 * o.energy * ((o.angmomSq : ℚ) : ℝ) / ((o.mu : ℚ) : ℝ) ^ 2

/-- Eccentricity of the osculating orbit. -/
noncomputable def Orbit.e (o : Orbit) : ℝ := Real.sqrt o.eSq

/-- A bound osculating orbit: negative specific energy. -/
def Orbit.bound (o : Orbit) : Prop := o.energy < 0

/-- Modelled from the spec: the snapshot the tracker writes when a new
minimum is found — the osculating orbit of the particle relative to the
reference body at the current state. -/
def osculatingOrbit (mu : ℚ) (r v : Vec3) : Orbit := ⟨mu, r, v⟩

/-- Modelled from the spec: the per-particle parameter store restricted to
the three reserved keys.  `min_distance_sq` holds the square of the
`min_distance` float (`none` when the key is absent, i.e. the particle is
untracked); `min_distance_from` holds the optional reference-body hash;
`min_distance_orbit` holds the optional orbit-snapshot target. -/
structure Params where
  min_distance_sq : Option ℚ
  min_distance_from : Option Nat
  min_distance_orbit : Option Orbit
deriving DecidableEq

/-- The spec's `min_distance` observable: the square root of the stored
squared minimum, when the particle is tracked. -/
noncomputable def Params.min_distance (ps : Params) : Option ℝ :=
  ps.min_distance_sq.map (fun m => Real.sqrt ((m : ℚ) : ℝ))

/-- Modelled from the spec: a particle, identified by a stable hash, with
position, velocity, mass and its parameter store. -/
structure Particle where
  hash : Nat
  m : ℚ
  pos : Vec3
  vel : Vec3
  params : Params
deriving DecidableEq

/-- Modelled from the spec: the simulation state visible to the tracker is
the indexed list of particles (index 0 is the primary body). -/
structure Simulation where
  particles : List Particle
deriving DecidableEq

/-- Modelled from the spec: the reference body of a tracked particle.  When
`min_distance_from` is absent it defaults to the primary body at index 0;
when present, it is the particle identified by that hash (lookup failure
means tracking is skipped for this particle). -/
def referenceOf (s : Simulation) (p : Particle) : Option Particle :=
  match p.params.min_distance_from with
  | none => s.particles.head?
  | some h => s.particles.find? (fun q => q.hash == h)

/-- Modelled from the spec: the tracker's per-particle update at an
accepted sub-step.  A particle without a `min_distance` parameter is
untracked and left untouched; a tracked particle whose reference body
cannot be found is skipped; otherwise the current distance to the
reference is compared with the stored minimum and, exactly when it is
smaller, the stored minimum is overwritten and — when an orbit target is
attached — the osculating orbit of the particle relative to the reference
at the current state is written over the target.  Distances are compared
through their squares, which is equivalent. -/
def trackParticle (s : Simulation) (p : Particle) : Particle :=
  match p.params.min_distance_sq, referenceOf s p with
  | some mSq, some ref =>
      if distSq p.pos ref.pos < mSq then
        { p with params :=
            { p.params with
              min_distance_sq := some (distSq p.pos ref.pos)
              min_distance_orbit := p.params.min_distance_orbit.map
                (fun _ => osculatingOrbit (p.m + ref.m)
                  (p.pos.sub ref.pos) (p.vel.sub ref.vel)) } }
      else p
  | _, _ => p

/-- Modelled from the spec: one tracker pass, evaluated once per accepted
sub-step over all particles (the tracker reads positions and masses of the
pre-pass state and mutates only parameter stores, so the pass is the
pointwise update). -/
def trackerPass (s : Simulation) : Simulation :=
  ⟨s.particles.map (trackParticle s)⟩

/-- Modelled from the spec: one sub-step of the external integrator, which
is out of scope and hence arbitrary — per particle index, a map from the
current (position, velocity) to the post-step (position, velocity).  The
integrator never touches parameter stores, hashes or masses. -/
abbrev Adv : Type := Nat → Vec3 × Vec3 → Vec3 × Vec3

/-- Apply an integrator advance to one particle. -/
def advP (f : Vec3 × Vec3 → Vec3 × Vec3) (p : Particle) : Particle :=
  { p with pos := (f (p.pos, p.vel)).1, vel := (f (p.pos, p.vel)).2 }

/-- Apply an advance to the tail of the particle list starting at index `k`. -/
def applyAdvanceAux (a : Adv) : Nat → List Particle → List Particle
  | _, [] => []
  | k, p :: rest => advP (a k) p :: applyAdvanceAux a (k + 1) rest

/-- Apply an integrator advance to the whole simulation. -/
def applyAdvance (a : Adv) (s : Simulation) : Simulation :=
  ⟨applyAdvanceAux a 0 s.particles⟩

/-- Modelled from the spec: one accepted integration sub-step — the
external integrator finalizes positions, then the tracker pass runs. -/
def subStep (a : Adv) (s : Simulation) : Simulation :=
  trackerPass (applyAdvance a s)

/-- Modelled from the spec: an integration run is a finite sequence of
accepted sub-steps. -/
def integrateRun (advs : List Adv) (s : Simulation) : Simulation :=
  advs.foldl (fun st a => subStep a st) s

/-- Rescale the position of the particle at the given index (list helper). -/
def scalePosL (c : ℚ) : Nat → List Particle → List Particle
  | _, [] => []
  | 0, p :: rest => { p with pos := p.pos.smul c } :: rest
  | Nat.succ n, p :: rest => p :: scalePosL c n rest

/-- Direct user mutation of a particle's position between integration
calls, as the notebook does with `ps[1].x /= 3` etc. -/
def scalePos (c : ℚ) (i : Nat) (s : Simulation) : Simulation :=
  ⟨scalePosL c i s.particles⟩

/-- Set `min_distance_from` on the particle at the given index (list helper). -/
def setFromL (h : Nat) : Nat → List Particle → List Particle
  | _, [] => []
  | 0, p :: rest =>
      { p with params := { p.params with min_distance_from := some h } } :: rest
  | Nat.succ n, p :: rest => p :: setFromL h n rest

/-- User operation: set the `min_distance_from` parameter of particle `i`
to the hash `h`, as in `ps[1].params["min_distance_from"] = ps[0].hash`. -/
def setMinDistanceFrom (h : Nat) (i : Nat) (s : Simulation) : Simulation :=
  ⟨setFromL h i s.particles⟩

/-! ### Concrete fixtures and observation sequences -/

/-- Concrete primary body used by the witnesses: the notebook's Sun. -/
def sunW : Particle := ⟨0, 1, ⟨0, 0, 0⟩, ⟨0, 0, 0⟩, ⟨none, none, none⟩⟩

/-- Concrete tracked particle used by the witnesses, with
`min_distance = 5` stored as its square 25. -/
def planetW : Particle := ⟨1, 0, ⟨1, 0, 0⟩, ⟨0, 1, 0⟩, ⟨some 25, none, none⟩⟩

/-- Concrete two-body simulation used by the witnesses. -/
def simW : Simulation := ⟨[sunW, planetW]⟩

/-- The trivial integrator advance that leaves every particle in place. -/
def idAdv : Adv := fun _ st => st

/-- Concrete particle tracking its distance from a body named by hash. -/
def planetF : Particle := ⟨2, 0, ⟨2, 0, 0⟩, ⟨0, 0, 0⟩, ⟨some 49, some 0, none⟩⟩

/-- Concrete simulation in which `min_distance_from` is set explicitly. -/
def simF : Simulation := ⟨[sunW, planetF]⟩

/-- All-zero orbit object used as the user-allocated snapshot target, the
notebook's `rebound.Orbit()`. -/
def orbitZero : Orbit := ⟨0, ⟨0, 0, 0⟩, ⟨0, 0, 0⟩⟩

/-- Radially plunging particle: bound but with zero angular momentum. -/
def planetC6 : Particle :=
  ⟨1, 0, ⟨1, 0, 0⟩, ⟨0, 0, 0⟩, ⟨some 25, none, some orbitZero⟩⟩

/-- Simulation holding the radially plunging tracked particle. -/
def simC6 : Simulation := ⟨[sunW, planetC6]⟩

/-- The osculating snapshot the tracker writes in `simC6`. -/
def radialOrbit : Orbit := osculatingOrbit 1 ⟨1, 0, 0⟩ ⟨0, 0, 0⟩

/-- Circularly orbiting tracked particle with an attached orbit target. -/
def planetC6w : Particle :=
  ⟨1, 0, ⟨1, 0, 0⟩, ⟨0, 1, 0⟩, ⟨some 25, none, some orbitZero⟩⟩

/-- Simulation holding the circularly orbiting tracked particle. -/
def simC6w : Simulation := ⟨[sunW, planetC6w]⟩

/-- Tracked particle far out, with a stored minimum from an earlier close
approach that the inward rescale cannot beat. -/
def planetC7 : Particle :=
  ⟨1, 0, ⟨9, 0, 0⟩, ⟨0, 0, 0⟩, ⟨some 1, none, some orbitZero⟩⟩

/-- Simulation for the C7 counterexample. -/
def simC7 : Simulation := ⟨[sunW, planetC7]⟩

/-- The particle `planetC7` after the inward rescale by 3. -/
def qC7 : Particle :=
  ⟨1, 0, ⟨3, 0, 0⟩, ⟨0, 0, 0⟩, ⟨some 1, none, some orbitZero⟩⟩

/-- Tracked particle far out whose stored minimum (10 squared) the inward
rescale does beat. -/
def planetC7w : Particle :=
  ⟨1, 0, ⟨9, 0, 0⟩, ⟨0, 0, 0⟩, ⟨some 100, none, some orbitZero⟩⟩

/-- Simulation for the C7 witness. -/
def simC7w : Simulation := ⟨[sunW, planetC7w]⟩

/-- The particle `planetC7w` after the inward rescale by 3. -/
def qC7w : Particle :=
  ⟨1, 0, ⟨3, 0, 0⟩, ⟨0, 0, 0⟩, ⟨some 100, none, some orbitZero⟩⟩

/-- The relative position of particle `i` with respect to its reference
body, when both exist. -/
def relPosOf (s : Simulation) (i : Nat) : Option Vec3 :=
  s.particles[i]?.bind
    (fun p => (referenceOf s p).map (fun r => p.pos.sub r.pos))

/-- Modelled from the spec: the sequence of post-advance states the tracker
observes during a run, projected to particle `i`'s relative position with
respect to its reference body at each accepted sub-step. -/
def observations : List Adv → Simulation → Nat → List (Option Vec3)
  | [], _, _ => []
  | a :: advs, s, i =>
      relPosOf (applyAdvance a s) i :: observations advs (subStep a s) i

/-- Modelled from the spec: the exact two-body Keplerian ellipse of the
notebook's configuration (semi-major axis 1, eccentricity 1/2), with the
reference body at the focus at the origin of the orbital plane: the center
sits at (-ae, 0) = (-1/2, 0) and the semi-minor axis squared is
a^2(1 - e^2) = 3/4.  Every point of this ellipse is at distance at least
a(1 - e) = 1/2 (the pericenter distance) from the focus. -/
def onKeplerEllipse (v : Vec3) : Prop :=
  (v.x + 1/2) ^ 2 + (4/3) * v.y ^ 2 = 1 ∧ v.z = 0

/-- Numerical-integration tolerance covering the notebook's observed value
0.5000033874136133 = 1/2 + 0.0000033874... ≤ 1/2 + tolC8. -/
def tolC8 : ℚ := 34/10000000

/-- The notebook's planet at apocenter (true anomaly π): distance
a(1+e) = 3/2 from the Sun, tracked with `min_distance = 5`. -/
def planetC8 : Particle :=
  ⟨1, 0, ⟨-3/2, 0, 0⟩, ⟨0, 0, 0⟩, ⟨some 25, none, none⟩⟩

/-- The notebook's two-body configuration for C8. -/
def simC8 : Simulation := ⟨[sunW, planetC8]⟩

/-- A sub-step of the exact Kepler integration carrying the planet to
pericenter (1/2, 0, 0) while the Sun stays put. -/
def advC8 : Adv := fun i st => if i = 1 then (⟨1/2, 0, 0⟩, st.2) else st

/-- Overwrite a particle's `min_distance_from` parameter with the hash
`h`. -/
def addFrom (h : Nat) (p : Particle) : Particle :=
  { p with params := { p.params with min_distance_from := some h } }

/-- Projection to the data the tracker reads from a reference particle:
its hash, position, velocity and mass. -/
def refData (p : Particle) : Nat × Vec3 × Vec3 × ℚ :=
  (p.hash, p.pos, p.vel, p.m)

/-! ### Basic characterization lemmas -/

/-! ### Basic characterization lemmas -/
theorem distSq_nonneg (p q : Vec3) : 0 ≤ distSq p q := by
  unfold distSq Vec3.normSq Vec3.sub
  positivity

theorem normSq_nonneg (v : Vec3) : 0 ≤ v.normSq := by
  unfold Vec3.normSq
  positivity

theorem trackParticle_untracked (s : Simulation) (p : Particle)
    (h : p.params.min_distance_sq = none) : trackParticle s p = p := by
  unfold trackParticle
  rw [h]

theorem trackParticle_noref (s : Simulation) (p : Particle)
    (h : referenceOf s p = none) : trackParticle s p = p := by
  unfold trackParticle
  rw [h]
  cases p.params.min_distance_sq <;> rfl

theorem trackParticle_tracked (s : Simulation) (p : Particle) (mSq : ℚ)
    (ref : Particle) (hm : p.params.min_distance_sq = some mSq)
    (hr : referenceOf s p = some ref) :
    trackParticle s p =
      if distSq p.pos ref.pos < mSq then
        { p with params :=
            { p.params with
              min_distance_sq := some (distSq p.pos ref.pos)
              min_distance_orbit := p.params.min_distance_orbit.map
                (fun _ => osculatingOrbit (p.m + ref.m)
                  (p.pos.sub ref.pos) (p.vel.sub ref.vel)) } }
      else p := by
  unfold trackParticle
  rw [hm, hr]

theorem trackParticle_min_distance_sq (s : Simulation) (p : Particle) (mSq : ℚ)
    (ref : Particle) (hm : p.params.min_distance_sq = some mSq)
    (hr : referenceOf s p = some ref) :
    (trackParticle s p).params.min_distance_sq =
      some (min (distSq p.pos ref.pos) mSq) := by
  rw [trackParticle_tracked s p mSq ref hm hr]
  split
  · next hlt => simp [min_eq_left (le_of_lt hlt)]
  · next hge => rw [hm, min_eq_right (le_of_not_lt hge)]

theorem trackParticle_preserves (s : Simulation) (p : Particle) :
    (trackParticle s p).hash = p.hash ∧ (trackParticle s p).m = p.m ∧
    (trackParticle s p).pos = p.pos ∧ (trackParticle s p).vel = p.vel ∧
    (trackParticle s p).params.min_distance_from =
      p.params.min_distance_from := by
  rcases hm : p.params.min_distance_sq with _ | mSq
  · rw [trackParticle_untracked s p hm]
    exact ⟨rfl, rfl, rfl, rfl, rfl⟩
  · rcases hr : referenceOf s p with _ | ref
    · rw [trackParticle_noref s p hr]
      exact ⟨rfl, rfl, rfl, rfl, rfl⟩
    · rw [trackParticle_tracked s p mSq ref hm hr]
      by_cases hd : distSq p.pos ref.pos < mSq
      · rw [if_pos hd]
        exact ⟨rfl, rfl, rfl, rfl, rfl⟩
      · rw [if_neg hd]
        exact ⟨rfl, rfl, rfl, rfl, rfl⟩

theorem trackParticle_tracked_isSome (s : Simulation) (p : Particle) (mSq : ℚ)
    (hm : p.params.min_distance_sq = some mSq) :
    ∃ mSq', (trackParticle s p).params.min_distance_sq = some mSq' ∧
      mSq' ≤ mSq ∧ (0 ≤ mSq → 0 ≤ mSq') := by
  cases hr : referenceOf s p with
  | none =>
      exact ⟨mSq, by rw [trackParticle_noref s p hr, hm], le_refl mSq,
        fun h => h⟩
  | some ref =>
      refine ⟨min (distSq p.pos ref.pos) mSq, ?_, min_le_right _ _, ?_⟩
      · exact trackParticle_min_distance_sq s p mSq ref hm hr
      · exact fun h => le_min (distSq_nonneg _ _) h

theorem advP_fields (f : Vec3 × Vec3 → Vec3 × Vec3) (p : Particle) :
    (advP f p).hash = p.hash ∧ (advP f p).m = p.m ∧
    (advP f p).params = p.params := ⟨rfl, rfl, rfl⟩

theorem applyAdvanceAux_getElem? (a : Adv) :
    ∀ (l : List Particle) (k i : Nat),
      (applyAdvanceAux a k l)[i]? = l[i]?.map (advP (a (k + i)))
  | [], _, _ => by simp [applyAdvanceAux]
  | p :: rest, k, 0 => by simp [applyAdvanceAux]
  | p :: rest, k, Nat.succ i => by
      have ih := applyAdvanceAux_getElem? a rest (k + 1) i
      simpa [applyAdvanceAux, Nat.add_assoc, Nat.add_comm 1 i] using ih

theorem applyAdvance_getElem? (a : Adv) (s : Simulation) (i : Nat) :
    (applyAdvance a s).particles[i]? = s.particles[i]?.map (advP (a i)) := by
  have h := applyAdvanceAux_getElem? a s.particles 0 i
  simpa [applyAdvance] using h

theorem trackerPass_getElem? (s : Simulation) (i : Nat) :
    (trackerPass s).particles[i]? = s.particles[i]?.map (trackParticle s) := by
  simp [trackerPass]

theorem subStep_getElem? (a : Adv) (s : Simulation) (i : Nat) :
    (subStep a s).particles[i]? =
      s.particles[i]?.map
        (fun p => trackParticle (applyAdvance a s) (advP (a i) p)) := by
  rw [subStep, trackerPass_getElem?, applyAdvance_getElem?, Option.map_map]
  rfl

theorem integrateRun_nil (s : Simulation) : integrateRun [] s = s := rfl

theorem integrateRun_cons (a : Adv) (advs : List Adv) (s : Simulation) :
    integrateRun (a :: advs) s = integrateRun advs (subStep a s) := rfl

/-- Across a whole run, a tracked particle stays tracked and its stored
squared minimum never increases. -/
theorem run_minSq_nonincreasing (advs : List Adv) (s : Simulation) (i : Nat)
    (p : Particle) (mSq : ℚ) (hp : s.particles[i]? = some p)
    (hm : p.params.min_distance_sq = some mSq) :
    ∃ p' mSq', (integrateRun advs s).particles[i]? = some p' ∧
      p'.params.min_distance_sq = some mSq' ∧ mSq' ≤ mSq ∧
      (0 ≤ mSq → 0 ≤ mSq') := by
  induction advs generalizing s p mSq with
  | nil => exact ⟨p, mSq, hp, hm, le_refl mSq, fun h => h⟩
  | cons a advs ih =>
      have h1 : (subStep a s).particles[i]? =
          some (trackParticle (applyAdvance a s) (advP (a i) p)) := by
        rw [subStep_getElem?, hp]
        rfl
      have hqm : (advP (a i) p).params.min_distance_sq = some mSq := hm
      obtain ⟨mSq₁, hms₁, hle₁, hnn₁⟩ :=
        trackParticle_tracked_isSome (applyAdvance a s) (advP (a i) p) mSq hqm
      obtain ⟨p', mSq', hp', hm', hle', hnn'⟩ :=
        ih (subStep a s) (trackParticle (applyAdvance a s) (advP (a i) p))
          mSq₁ h1 hms₁
      exact ⟨p', mSq', hp', hm', le_trans hle' hle₁,
        fun h => hnn' (hnn₁ h)⟩

/-- C1: for every integration run and fixed reference body, the stored
minimum of every tracked particle is monotonically non-increasing across
successive accepted sub-steps: after any `subStep` the stored square —
hence the spec's `min_distance` value, its square root — is at most its
value before the step. -/
theorem min_distance_nonincreasing (a : Adv) (s : Simulation) (i : Nat)
    (p : Particle) (mSq : ℚ) (hp : s.particles[i]? = some p)
    (hm : p.params.min_distance_sq = some mSq) :
    ∃ p' mSq', (subStep a s).particles[i]? = some p' ∧
      p'.params.min_distance_sq = some mSq' ∧ mSq' ≤ mSq ∧
      Real.sqrt ((mSq' : ℚ) : ℝ) ≤ Real.sqrt ((mSq : ℚ) : ℝ) := by
  have h1 : (subStep a s).particles[i]? =
      some (trackParticle (applyAdvance a s) (advP (a i) p)) := by
    rw [subStep_getElem?, hp]
    rfl
  have hqm : (advP (a i) p).params.min_distance_sq = some mSq := hm
  obtain ⟨mSq', hms, hle, -⟩ :=
    trackParticle_tracked_isSome (applyAdvance a s) (advP (a i) p) mSq hqm
  refine ⟨_, mSq', h1, hms, hle, Real.sqrt_le_sqrt ?_⟩
  exact_mod_cast hle

/-- Witness for C1 at a concrete input. -/
theorem min_distance_nonincreasing_witness :
    simW.particles[1]? = some planetW ∧
    planetW.params.min_distance_sq = some 25 ∧
    (∃ p' mSq', (subStep idAdv simW).particles[1]? = some p' ∧
      p'.params.min_distance_sq = some mSq' ∧ mSq' ≤ 25 ∧
      Real.sqrt ((mSq' : ℚ) : ℝ) ≤ Real.sqrt ((25 : ℚ) : ℝ)) :=
  ⟨by decide, by decide,
    min_distance_nonincreasing idAdv simW 1 planetW 25 (by decide) (by decide)⟩

/-- C3: a particle on which the user never set `min_distance` is silently
untracked — across any whole integration run the tracker creates no
parameter and modifies no parameter on it: its parameter store is exactly
what it was at the start (so `min_distance` in particular is still absent,
and nothing errored). -/
theorem untracked_particle_params_untouched (advs : List Adv)
    (s : Simulation) (i : Nat) (p : Particle)
    (hp : s.particles[i]? = some p)
    (hm : p.params.min_distance_sq = none) :
    ∃ p', (integrateRun advs s).particles[i]? = some p' ∧
      p'.params = p.params := by
  induction advs generalizing s p with
  | nil => exact ⟨p, hp, rfl⟩
  | cons a advs ih =>
      have hqm : (advP (a i) p).params.min_distance_sq = none := hm
      have h1 : (subStep a s).particles[i]? = some (advP (a i) p) := by
        rw [subStep_getElem?, hp]
        simp only [Option.map_some']
        rw [trackParticle_untracked _ _ hqm]
      obtain ⟨p', hp', hparams⟩ := ih (subStep a s) (advP (a i) p) h1 hqm
      exact ⟨p', hp', hparams⟩

/-- Witness for C3 at a concrete input: the Sun never had `min_distance`
set, and a one-step run leaves its parameter store untouched. -/
theorem untracked_particle_params_untouched_witness :
    simW.particles[0]? = some sunW ∧
    sunW.params.min_distance_sq = none ∧
    (∃ p', (integrateRun [idAdv] simW).particles[0]? = some p' ∧
      p'.params = sunW.params) :=
  ⟨by decide, by decide,
    untracked_particle_params_untouched [idAdv] simW 0 sunW (by decide)
      (by decide)⟩

/-- C2: at every accepted integration sub-step and for every tracked
particle whose reference body is found, the tracker compares the euclidean
distance `d` from the particle's post-step position to the reference's
position with the stored minimum; exactly when `d` is smaller it overwrites
the stored minimum with `d` and — when a `min_distance_orbit` target is
attached — overwrites the target in place with the osculating orbit of the
particle relative to the reference body at the current state.  The first
conjunct places the tracker inside the sub-step, the second and fourth give
the conditional update of the two parameters on the stored squares, and the
third states that the update condition is exactly
`euclidean_distance < stored_min`. -/
theorem tracker_substep_update (a : Adv) (s : Simulation) (i : Nat)
    (p ref : Particle) (mSq : ℚ) (hp : s.particles[i]? = some p)
    (hm : p.params.min_distance_sq = some mSq)
    (href : referenceOf (applyAdvance a s) (advP (a i) p) = some ref) :
    (subStep a s).particles[i]? =
        some (trackParticle (applyAdvance a s) (advP (a i) p)) ∧
    (trackParticle (applyAdvance a s) (advP (a i) p)).params.min_distance_sq =
        some (if distSq (advP (a i) p).pos ref.pos < mSq
          then distSq (advP (a i) p).pos ref.pos else mSq) ∧
    (distSq (advP (a i) p).pos ref.pos < mSq ↔
        dist (advP (a i) p).pos ref.pos < Real.sqrt ((mSq : ℚ) : ℝ)) ∧
    (trackParticle (applyAdvance a s) (advP (a i) p)).params.min_distance_orbit =
        (if distSq (advP (a i) p).pos ref.pos < mSq
          then (advP (a i) p).params.min_distance_orbit.map
            (fun _ => osculatingOrbit ((advP (a i) p).m + ref.m)
              ((advP (a i) p).pos.sub ref.pos) ((advP (a i) p).vel.sub ref.vel))
          else (advP (a i) p).params.min_distance_orbit) := by
  have hqm : (advP (a i) p).params.min_distance_sq = some mSq := hm
  have htr := trackParticle_tracked (applyAdvance a s) (advP (a i) p) mSq ref hqm href
  refine ⟨?_, ?_, ?_, ?_⟩
  · rw [subStep_getElem?, hp]
    rfl
  · rw [htr]
    by_cases hd : distSq (advP (a i) p).pos ref.pos < mSq
    · rw [if_pos hd, if_pos hd]
    · rw [if_neg hd, if_neg hd, hqm]
  · unfold dist
    rw [Real.sqrt_lt_sqrt_iff (by exact_mod_cast distSq_nonneg _ _)]
    exact (Rat.cast_lt (K := ℝ)).symm
  · rw [htr]
    by_cases hd : distSq (advP (a i) p).pos ref.pos < mSq
    · rw [if_pos hd, if_pos hd]
    · rw [if_neg hd, if_neg hd]

/-- Witness for C2 at a concrete input. -/
theorem tracker_substep_update_witness :
    simW.particles[1]? = some planetW ∧
    planetW.params.min_distance_sq = some 25 ∧
    referenceOf (applyAdvance idAdv simW) (advP (idAdv 1) planetW) = some sunW ∧
    ((subStep idAdv simW).particles[1]? =
        some (trackParticle (applyAdvance idAdv simW) (advP (idAdv 1) planetW)) ∧
    (trackParticle (applyAdvance idAdv simW)
        (advP (idAdv 1) planetW)).params.min_distance_sq =
        some (if distSq (advP (idAdv 1) planetW).pos sunW.pos < 25
          then distSq (advP (idAdv 1) planetW).pos sunW.pos else 25) ∧
    (distSq (advP (idAdv 1) planetW).pos sunW.pos < 25 ↔
        dist (advP (idAdv 1) planetW).pos sunW.pos <
          Real.sqrt ((25 : ℚ) : ℝ)) ∧
    (trackParticle (applyAdvance idAdv simW)
        (advP (idAdv 1) planetW)).params.min_distance_orbit =
        (if distSq (advP (idAdv 1) planetW).pos sunW.pos < 25
          then (advP (idAdv 1) planetW).params.min_distance_orbit.map
            (fun _ => osculatingOrbit ((advP (idAdv 1) planetW).m + sunW.m)
              ((advP (idAdv 1) planetW).pos.sub sunW.pos)
              ((advP (idAdv 1) planetW).vel.sub sunW.vel))
          else (advP (idAdv 1) planetW).params.min_distance_orbit)) :=
  ⟨by decide, by decide, by decide,
    tracker_substep_update idAdv simW 1 planetW sunW 25 (by decide) (by decide)
      (by decide)⟩

/-- C4: which body the distance is measured against.  When
`min_distance_from` is absent the minimum update uses the distance to the
primary body at particle index 0; when it is present, it uses the distance
to the particle identified by that hash. -/
theorem reference_body_selection (s : Simulation) (p : Particle) (mSq : ℚ)
    (hm : p.params.min_distance_sq = some mSq) :
    (∀ prim, p.params.min_distance_from = none → s.particles[0]? = some prim →
      (trackParticle s p).params.min_distance_sq =
        some (min (distSq p.pos prim.pos) mSq)) ∧
    (∀ h ref, p.params.min_distance_from = some h →
      s.particles.find? (fun q => q.hash == h) = some ref →
      (trackParticle s p).params.min_distance_sq =
        some (min (distSq p.pos ref.pos) mSq)) := by
  constructor
  · intro prim hfrom h0
    have href : referenceOf s p = some prim := by
      unfold referenceOf
      rw [hfrom, List.head?_eq_getElem?]
      exact h0
    exact trackParticle_min_distance_sq s p mSq prim hm href
  · intro h ref hfrom hfind
    have href : referenceOf s p = some ref := by
      unfold referenceOf
      rw [hfrom]
      exact hfind
    exact trackParticle_min_distance_sq s p mSq ref hm href

/-- Witness for C4 at concrete inputs, exercising both the default and the
hash-selected reference body. -/
theorem reference_body_selection_witness :
    planetW.params.min_distance_sq = some 25 ∧
    (trackParticle simW planetW).params.min_distance_sq =
      some (min (distSq planetW.pos sunW.pos) 25) ∧
    planetF.params.min_distance_sq = some 49 ∧
    (trackParticle simF planetF).params.min_distance_sq =
      some (min (distSq planetF.pos sunW.pos) 49) :=
  ⟨by decide,
    (reference_body_selection simW planetW 25 (by decide)).1 sunW (by decide)
      (by decide),
    by decide,
    (reference_body_selection simF planetF 49 (by decide)).2 0 sunW (by decide)
      (by decide)⟩

/-- C5: absence of the optional parameters `min_distance_from` and
`min_distance_orbit` is treated as a default and never an error: the
sub-step still completes (every operation of the model is total), the
particle is tracked against the primary body at index 0, its stored
minimum is updated by the usual rule, and the absent orbit slot simply
stays absent. -/
theorem optional_params_absent_default (a : Adv) (s : Simulation) (i : Nat)
    (p prim : Particle) (mSq : ℚ)
    (hp : s.particles[i]? = some p)
    (hm : p.params.min_distance_sq = some mSq)
    (hfrom : p.params.min_distance_from = none)
    (horb : p.params.min_distance_orbit = none)
    (hprim : (applyAdvance a s).particles[0]? = some prim) :
    ∃ p', (subStep a s).particles[i]? = some p' ∧
      p'.params.min_distance_sq =
        some (min (distSq (advP (a i) p).pos prim.pos) mSq) ∧
      p'.params.min_distance_orbit = none := by
  have hqm : (advP (a i) p).params.min_distance_sq = some mSq := hm
  have hqfrom : (advP (a i) p).params.min_distance_from = none := hfrom
  have hqorb : (advP (a i) p).params.min_distance_orbit = none := horb
  have href : referenceOf (applyAdvance a s) (advP (a i) p) = some prim := by
    unfold referenceOf
    rw [hqfrom, List.head?_eq_getElem?]
    exact hprim
  have h1 : (subStep a s).particles[i]? =
      some (trackParticle (applyAdvance a s) (advP (a i) p)) := by
    rw [subStep_getElem?, hp]
    rfl
  refine ⟨_, h1, trackParticle_min_distance_sq _ _ mSq prim hqm href, ?_⟩
  rw [trackParticle_tracked _ _ mSq prim hqm href]
  by_cases hd : distSq (advP (a i) p).pos prim.pos < mSq
  · rw [if_pos hd]
    dsimp only
    rw [hqorb]
    rfl
  · rw [if_neg hd]
    exact hqorb

/-- Witness for C5 at a concrete input. -/
theorem optional_params_absent_default_witness :
    simW.particles[1]? = some planetW ∧
    planetW.params.min_distance_sq = some 25 ∧
    planetW.params.min_distance_from = none ∧
    planetW.params.min_distance_orbit = none ∧
    (applyAdvance idAdv simW).particles[0]? = some sunW ∧
    (∃ p', (subStep idAdv simW).particles[1]? = some p' ∧
      p'.params.min_distance_sq =
        some (min (distSq (advP (idAdv 1) planetW).pos sunW.pos) 25) ∧
      p'.params.min_distance_orbit = none) :=
  ⟨by decide, by decide, by decide, by decide, by decide,
    optional_params_absent_default idAdv simW 1 planetW sunW 25 (by decide)
      (by decide) (by decide) (by decide) (by decide)⟩

theorem scalePosL_params (c : ℚ) :
    ∀ (i : Nat) (l : List Particle) (j : Nat),
      ((scalePosL c i l)[j]?).map Particle.params =
        (l[j]?).map Particle.params
  | _, [], _ => by simp [scalePosL]
  | 0, p :: rest, 0 => by simp [scalePosL]
  | 0, p :: rest, Nat.succ j => by simp [scalePosL]
  | Nat.succ n, p :: rest, 0 => by simp [scalePosL]
  | Nat.succ n, p :: rest, Nat.succ j => by
      simpa [scalePosL] using scalePosL_params c n rest j

/-- C9: directly mutating a tracked particle's position (the notebook's
`ps[1].x /= 3` etc., modelled by `scalePos`) does not by itself change
`min_distance` or `min_distance_orbit`: every particle's parameter store —
in particular the stored squared minimum, the real `min_distance`
observable and the orbit snapshot — is exactly what it was before the
mutation; only an integration sub-step (`subStep`) runs the tracker that
updates them. -/
theorem direct_mutation_preserves_params (c : ℚ) (i : Nat) (s : Simulation)
    (j : Nat) :
    ((scalePos c i s).particles[j]?).map
        (fun q => q.params.min_distance_sq) =
      (s.particles[j]?).map (fun q => q.params.min_distance_sq) ∧
    ((scalePos c i s).particles[j]?).map
        (fun q => q.params.min_distance_orbit) =
      (s.particles[j]?).map (fun q => q.params.min_distance_orbit) ∧
    ((scalePos c i s).particles[j]?).map
        (fun q => q.params.min_distance) =
      (s.particles[j]?).map (fun q => q.params.min_distance) := by
  have h := scalePosL_params c i s.particles j
  refine ⟨?_, ?_, ?_⟩
  · have : ((scalePos c i s).particles[j]?).map
        ((fun ps => ps.min_distance_sq) ∘ Particle.params) =
        (s.particles[j]?).map
          ((fun ps => ps.min_distance_sq) ∘ Particle.params) := by
      rw [← Option.map_map, ← Option.map_map]
      exact congrArg _ h
    exact this
  · have : ((scalePos c i s).particles[j]?).map
        ((fun ps => ps.min_distance_orbit) ∘ Particle.params) =
        (s.particles[j]?).map
          ((fun ps => ps.min_distance_orbit) ∘ Particle.params) := by
      rw [← Option.map_map, ← Option.map_map]
      exact congrArg _ h
    exact this
  · have : ((scalePos c i s).particles[j]?).map
        ((fun ps => ps.min_distance) ∘ Particle.params) =
        (s.particles[j]?).map
          ((fun ps => ps.min_distance) ∘ Particle.params) := by
      rw [← Option.map_map, ← Option.map_map]
      exact congrArg _ h
    exact this

/-- A bound (negative-energy) osculating orbit with nonzero angular
momentum is a valid ellipse: `0 ≤ e < 1` and `a > 0`. -/
theorem bound_orbit_valid (o : Orbit) (hb : o.bound) (hh : 0 < o.angmomSq) :
    0 ≤ o.e ∧ o.e < 1 ∧ 0 < o.a := by
  have hv : (0 : ℝ) ≤ ((o.vvec.normSq : ℚ) : ℝ) := by
    exact_mod_cast normSq_nonneg _
  have hE : o.energy < 0 := hb
  have hdiv : 0 < ((o.mu : ℚ) : ℝ) / o.rmag := by
    unfold Orbit.energy at hE
    linarith
  have hmu : 0 < ((o.mu : ℚ) : ℝ) := by
    rcases div_pos_iff.mp hdiv with ⟨h1, _⟩ | ⟨_, h2⟩
    · exact h1
    · exact absurd h2 (not_lt.mpr (Real.sqrt_nonneg _))
  have ha : 0 < o.a := by
    unfold Orbit.a
    apply div_pos_iff.mpr
    exact Or.inr ⟨by linarith, by linarith⟩
  have hhC : (0 : ℝ) < ((o.angmomSq : ℚ) : ℝ) := by exact_mod_cast hh
  have hterm :
      2 * o.energy * ((o.angmomSq : ℚ) : ℝ) / ((o.mu : ℚ) : ℝ) ^ 2 < 0 := by
    apply div_neg_of_neg_of_pos
    · have h2E : 2 * o.energy < 0 := by linarith
      exact mul_neg_of_neg_of_pos h2E hhC
    · positivity
  have heSq : o.eSq < 1 := by
    unfold Orbit.eSq
    linarith
  refine ⟨Real.sqrt_nonneg _, ?_, ha⟩
  unfold Orbit.e
  rw [Real.sqrt_lt' one_pos, one_pow]
  exact heSq

/-- C6 (amended): whenever the tracker finds a new minimum and updates an
attached `min_distance_orbit` target, the written snapshot is the
osculating orbit at the current state, and — provided that orbit is bound
and has nonzero angular momentum, the non-radial case the counterexample
forces — its fields describe a valid osculating ellipse: the eccentricity
satisfies `0 ≤ e < 1` and the semi-major axis satisfies `a > 0`. -/
theorem orbit_snapshot_valid_when_bound (s : Simulation) (p ref : Particle)
    (mSq : ℚ) (o₀ : Orbit)
    (hm : p.params.min_distance_sq = some mSq)
    (href : referenceOf s p = some ref)
    (hupd : distSq p.pos ref.pos < mSq)
    (horb : p.params.min_distance_orbit = some o₀)
    (hbound : (osculatingOrbit (p.m + ref.m) (p.pos.sub ref.pos)
      (p.vel.sub ref.vel)).bound)
    (hang : 0 < (osculatingOrbit (p.m + ref.m) (p.pos.sub ref.pos)
      (p.vel.sub ref.vel)).angmomSq) :
    ∃ o, (trackParticle s p).params.min_distance_orbit = some o ∧
      0 ≤ o.e ∧ o.e < 1 ∧ 0 < o.a := by
  obtain ⟨he0, he1, ha⟩ := bound_orbit_valid _ hbound hang
  refine ⟨osculatingOrbit (p.m + ref.m) (p.pos.sub ref.pos)
    (p.vel.sub ref.vel), ?_, he0, he1, ha⟩
  rw [trackParticle_tracked s p mSq ref hm href, if_pos hupd]
  dsimp only
  rw [horb]
  rfl

theorem radialOrbit_energy : radialOrbit.energy = -1 := by
  unfold Orbit.energy Orbit.rmag radialOrbit osculatingOrbit
  norm_num [Vec3.normSq, Real.sqrt_one]

theorem radialOrbit_e : radialOrbit.e = 1 := by
  unfold Orbit.e Orbit.eSq Orbit.angmomSq
  rw [radialOrbit_energy]
  norm_num [radialOrbit, osculatingOrbit, Vec3.cross, Vec3.normSq,
    Real.sqrt_one]

/-- C6 counterexample: at a radial bound state (zero angular momentum) the
tracker finds a new minimum and overwrites the attached orbit snapshot,
the written snapshot is bound, yet its eccentricity equals 1, violating
`e < 1`: the claim fails as stated for this bound orbit. -/
theorem orbit_snapshot_radial_invalid :
    (trackParticle simC6 planetC6).params.min_distance_orbit =
      some radialOrbit ∧
    radialOrbit.bound ∧ ¬ radialOrbit.e < 1 := by
  refine ⟨?_, ?_, ?_⟩
  · have hm : planetC6.params.min_distance_sq = some 25 := rfl
    have hr : referenceOf simC6 planetC6 = some sunW := rfl
    have hd : distSq planetC6.pos sunW.pos < 25 := by
      norm_num [distSq, Vec3.normSq, Vec3.sub, planetC6, sunW]
    rw [trackParticle_tracked simC6 planetC6 25 sunW hm hr, if_pos hd]
    norm_num [planetC6, sunW, osculatingOrbit, radialOrbit, Vec3.sub,
      orbitZero]
  · show radialOrbit.energy < 0
    rw [radialOrbit_energy]
    norm_num
  · rw [radialOrbit_e]
    norm_num

theorem planetC6w_snapshot_bound :
    (osculatingOrbit (planetC6w.m + sunW.m) (planetC6w.pos.sub sunW.pos)
      (planetC6w.vel.sub sunW.vel)).bound := by
  show (osculatingOrbit _ _ _).energy < 0
  unfold Orbit.energy Orbit.rmag osculatingOrbit planetC6w sunW
  norm_num [Vec3.normSq, Vec3.sub, Real.sqrt_one]

theorem planetC6w_close : distSq planetC6w.pos sunW.pos < 25 := by
  norm_num [distSq, Vec3.normSq, Vec3.sub, planetC6w, sunW]

theorem planetC6w_angmom :
    0 < (osculatingOrbit (planetC6w.m + sunW.m) (planetC6w.pos.sub sunW.pos)
      (planetC6w.vel.sub sunW.vel)).angmomSq := by
  norm_num [osculatingOrbit, Orbit.angmomSq, Vec3.cross, Vec3.normSq,
    Vec3.sub, planetC6w, sunW]

/-- Witness for C6 at a concrete input: a circular bound orbit. -/
theorem orbit_snapshot_valid_when_bound_witness :
    planetC6w.params.min_distance_sq = some 25 ∧
    referenceOf simC6w planetC6w = some sunW ∧
    distSq planetC6w.pos sunW.pos < 25 ∧
    planetC6w.params.min_distance_orbit = some orbitZero ∧
    0 < (osculatingOrbit (planetC6w.m + sunW.m) (planetC6w.pos.sub sunW.pos)
      (planetC6w.vel.sub sunW.vel)).angmomSq ∧
    (∃ o, (trackParticle simC6w planetC6w).params.min_distance_orbit =
        some o ∧ 0 ≤ o.e ∧ o.e < 1 ∧ 0 < o.a) :=
  ⟨by decide, by decide, planetC6w_close, by decide, planetC6w_angmom,
    orbit_snapshot_valid_when_bound simC6w planetC6w sunW 25 orbitZero
      (by decide) (by decide) planetC6w_close (by decide)
      planetC6w_snapshot_bound planetC6w_angmom⟩

theorem advP_id (i : Nat) (p : Particle) : advP (idAdv i) p = p := rfl

theorem applyAdvanceAux_id : ∀ (k : Nat) (l : List Particle),
    applyAdvanceAux idAdv k l = l
  | _, [] => rfl
  | k, p :: rest => by
      show advP (idAdv k) p :: applyAdvanceAux idAdv (k + 1) rest = p :: rest
      rw [applyAdvanceAux_id (k + 1) rest]
      rfl

/-- The identity advance leaves the simulation state unchanged: it models
the integrator continuing from exactly the current (e.g. just-rescaled)
positions at the first accepted sub-step. -/
theorem applyAdvance_id (s : Simulation) : applyAdvance idAdv s = s := by
  show Simulation.mk (applyAdvanceAux idAdv 0 s.particles) = s
  rw [applyAdvanceAux_id]

/-- C7 (amended): rescaling a tracked particle's position inward between
integration calls produces, on the next integration call, a stored minimum
strictly smaller than the one stored before — and the attached orbit
target is overwritten with the osculating orbit at that state — provided
the particle's post-rescale distance to its reference body is strictly
below the stored minimum (as in the notebook's scenario; the
counterexample shows the unconditional claim is false).  The first
sub-step of the call continues from the rescaled state. -/
theorem rescale_inward_strict_decrease (advs : List Adv) (s : Simulation)
    (i : Nat) (c : ℚ) (q ref : Particle) (mSq : ℚ)
    (hq : (scalePos c i s).particles[i]? = some q)
    (hm : q.params.min_distance_sq = some mSq)
    (href : referenceOf (scalePos c i s) q = some ref)
    (hlt : distSq q.pos ref.pos < mSq) :
    (∃ p' mSq',
      (integrateRun (idAdv :: advs) (scalePos c i s)).particles[i]? =
        some p' ∧
      p'.params.min_distance_sq = some mSq' ∧ mSq' < mSq ∧
      Real.sqrt ((mSq' : ℚ) : ℝ) < Real.sqrt ((mSq : ℚ) : ℝ)) ∧
    ((subStep idAdv (scalePos c i s)).particles[i]?).map
        (fun r => r.params.min_distance_orbit) =
      some (q.params.min_distance_orbit.map
        (fun _ => osculatingOrbit (q.m + ref.m) (q.pos.sub ref.pos)
          (q.vel.sub ref.vel))) := by
  have h1 : (subStep idAdv (scalePos c i s)).particles[i]? =
      some (trackParticle (scalePos c i s) q) := by
    rw [subStep_getElem?, applyAdvance_id]
    simp only [advP_id]
    rw [hq]
    rfl
  have htrmin : (trackParticle (scalePos c i s) q).params.min_distance_sq =
      some (distSq q.pos ref.pos) := by
    rw [trackParticle_min_distance_sq _ _ mSq ref hm href,
      min_eq_left (le_of_lt hlt)]
  constructor
  · obtain ⟨p', mSq', hp', hm', hle, hnn⟩ :=
      run_minSq_nonincreasing advs (subStep idAdv (scalePos c i s)) i _ _
        h1 htrmin
    refine ⟨p', mSq', hp', hm', lt_of_le_of_lt hle hlt,
      Real.sqrt_lt_sqrt ?_ ?_⟩
    · exact_mod_cast hnn (distSq_nonneg _ _)
    · exact_mod_cast lt_of_le_of_lt hle hlt
  · rw [h1, Option.map_some']
    rw [trackParticle_tracked _ _ mSq ref hm href, if_pos hlt]

theorem scaled_simC7 : scalePos (1/3) 1 simC7 = Simulation.mk [sunW, qC7] := by
  show Simulation.mk (scalePosL (1/3) 1 [sunW, planetC7]) = _
  norm_num [scalePosL, Vec3.smul, planetC7, qC7, sunW]

/-- C7 counterexample: the tracked particle sits at distance 9 with stored
minimum 1 (from an earlier close approach).  Rescaling its position inward
by 3 brings it to distance 3, still above the stored minimum, so the next
integration call leaves `min_distance` unchanged at 1 — not strictly
smaller, refuting the claim as stated. -/
theorem rescale_inward_no_decrease :
    ((scalePos (1/3) 1 simC7).particles[1]?).map (fun r => r.pos) =
      some ⟨3, 0, 0⟩ ∧
    ((integrateRun [idAdv] (scalePos (1/3) 1 simC7)).particles[1]?).map
        (fun r => r.params.min_distance_sq) = some (some 1) ∧
    (simC7.particles[1]?).map (fun r => r.params.min_distance_sq) =
      some (some 1) := by
  refine ⟨?_, ?_, by decide⟩
  · rw [scaled_simC7]
    rfl
  · rw [show integrateRun [idAdv] (scalePos (1/3) 1 simC7) =
      subStep idAdv (scalePos (1/3) 1 simC7) from rfl, scaled_simC7]
    have h1 : (subStep idAdv (Simulation.mk [sunW, qC7])).particles[1]? =
        some (trackParticle (Simulation.mk [sunW, qC7]) qC7) := by
      rw [subStep_getElem?, applyAdvance_id]
      simp only [advP_id]
      rfl
    rw [h1, Option.map_some']
    have hm : qC7.params.min_distance_sq = some 1 := rfl
    have hr : referenceOf (Simulation.mk [sunW, qC7]) qC7 = some sunW := rfl
    rw [trackParticle_min_distance_sq _ _ 1 sunW hm hr]
    have h9 : (1 : ℚ) ≤ distSq qC7.pos sunW.pos := by
      norm_num [distSq, Vec3.normSq, Vec3.sub, qC7, sunW]
    rw [min_eq_right h9]

theorem scaled_simC7w :
    scalePos (1/3) 1 simC7w = Simulation.mk [sunW, qC7w] := by
  show Simulation.mk (scalePosL (1/3) 1 [sunW, planetC7w]) = _
  norm_num [scalePosL, Vec3.smul, planetC7w, qC7w, sunW]

theorem qC7w_close : distSq qC7w.pos sunW.pos < 100 := by
  norm_num [distSq, Vec3.normSq, Vec3.sub, qC7w, sunW]

/-- Witness for C7 at a concrete input. -/
theorem rescale_inward_strict_decrease_witness :
    (scalePos (1/3) 1 simC7w).particles[1]? = some qC7w ∧
    qC7w.params.min_distance_sq = some 100 ∧
    referenceOf (scalePos (1/3) 1 simC7w) qC7w = some sunW ∧
    distSq qC7w.pos sunW.pos < 100 ∧
    ((∃ p' mSq',
      (integrateRun [idAdv] (scalePos (1/3) 1 simC7w)).particles[1]? =
        some p' ∧
      p'.params.min_distance_sq = some mSq' ∧ mSq' < 100 ∧
      Real.sqrt ((mSq' : ℚ) : ℝ) < Real.sqrt ((100 : ℚ) : ℝ)) ∧
    ((subStep idAdv (scalePos (1/3) 1 simC7w)).particles[1]?).map
        (fun r => r.params.min_distance_orbit) =
      some (qC7w.params.min_distance_orbit.map
        (fun _ => osculatingOrbit (qC7w.m + sunW.m) (qC7w.pos.sub sunW.pos)
          (qC7w.vel.sub sunW.vel)))) :=
  ⟨by rw [scaled_simC7w]; rfl, by decide,
    by rw [scaled_simC7w]; rfl, qC7w_close,
    rescale_inward_strict_decrease [] simC7w 1 (1/3) qC7w sunW 100
      (by rw [scaled_simC7w]; rfl) (by decide)
      (by rw [scaled_simC7w]; rfl) qC7w_close⟩

theorem foldl_min_le_init : ∀ (l : List ℚ) (m : ℚ), l.foldl min m ≤ m
  | [], m => le_refl m
  | x :: l, m => le_trans (foldl_min_le_init l (min m x)) (min_le_left m x)

theorem le_foldl_min : ∀ (l : List ℚ) (m lo : ℚ), lo ≤ m →
    (∀ d ∈ l, lo ≤ d) → lo ≤ l.foldl min m
  | [], _, _, hm, _ => hm
  | x :: l, m, lo, hm, hl =>
      le_foldl_min l (min m x) lo
        (le_min hm (hl x (List.mem_cons_self x l)))
        (fun d hd => hl d (List.mem_cons_of_mem x hd))

theorem foldl_min_le_mem :
    ∀ (l : List ℚ) (m d : ℚ), d ∈ l → l.foldl min m ≤ d
  | [], _, _, h => absurd h (List.not_mem_nil _)
  | x :: l, m, d, h => by
      rcases List.mem_cons.mp h with rfl | h'
      · exact le_trans (foldl_min_le_init l (min m d)) (min_le_right m d)
      · exact foldl_min_le_mem l (min m x) d h'

/-- The stored squared minimum at the end of a run is the running minimum
of the initial value and the squared distances observed at every accepted
sub-step in which the reference body was found. -/
theorem run_minSq_eq_foldl (advs : List Adv) (s : Simulation) (i : Nat)
    (p : Particle) (m₀ : ℚ) (vs : List Vec3)
    (hp : s.particles[i]? = some p)
    (hm : p.params.min_distance_sq = some m₀)
    (hobs : observations advs s i = vs.map some) :
    ∃ p', (integrateRun advs s).particles[i]? = some p' ∧
      p'.params.min_distance_sq =
        some ((vs.map Vec3.normSq).foldl min m₀) := by
  induction advs generalizing s p m₀ vs with
  | nil =>
      cases vs with
      | nil => exact ⟨p, hp, by rw [hm]; rfl⟩
      | cons v vs' => exact absurd hobs (by simp [observations])
  | cons a advs ih =>
      cases vs with
      | nil => exact absurd hobs (by simp [observations])
      | cons v vs' =>
          rw [show observations (a :: advs) s i =
            relPosOf (applyAdvance a s) i ::
              observations advs (subStep a s) i from rfl,
            List.map_cons, List.cons_eq_cons] at hobs
          obtain ⟨h0, hrest⟩ := hobs
          have hq : (applyAdvance a s).particles[i]? =
              some (advP (a i) p) := by
            rw [applyAdvance_getElem?, hp]
            rfl
          rw [relPosOf, hq] at h0
          simp only [Option.some_bind] at h0
          obtain ⟨ref, href, hrel⟩ := Option.map_eq_some'.mp h0
          have hdist : distSq (advP (a i) p).pos ref.pos = v.normSq := by
            rw [← hrel]
            rfl
          have hqm : (advP (a i) p).params.min_distance_sq = some m₀ := hm
          have h1 : (subStep a s).particles[i]? =
              some (trackParticle (applyAdvance a s) (advP (a i) p)) := by
            rw [subStep_getElem?, hp]
            rfl
          have h2 : (trackParticle (applyAdvance a s)
              (advP (a i) p)).params.min_distance_sq =
              some (min m₀ v.normSq) := by
            rw [trackParticle_min_distance_sq _ _ m₀ ref hqm href, hdist,
              min_comm]
          obtain ⟨p', hp', hm'⟩ :=
            ih (subStep a s) _ (min m₀ v.normSq) vs' h1 h2 hrest
          refine ⟨p', by rw [integrateRun_cons]; exact hp', ?_⟩
          rw [hm']
          rfl

theorem ellipse_distSq_lower (v : Vec3) (h : onKeplerEllipse v) :
    1/4 ≤ v.normSq := by
  obtain ⟨h1, h2⟩ := h
  unfold Vec3.normSq
  rw [h2]
  have hx : v.x ≤ 1/2 := by nlinarith [sq_nonneg v.y]
  nlinarith [sq_nonneg v.y, hx]

/-- C8: in the notebook's two-body configuration (central mass 1,
semi-major axis 1, eccentricity 1/2, starting at true anomaly π) with
`min_distance` initialized to 5 (stored as 25), an integration that keeps
the exact Keplerian states — every observed relative position on the
a = 1, e = 1/2 ellipse — and passes close enough to pericenter that some
sub-step observes a distance at most 1/2 + tolC8, ends with a
`min_distance` between the pericenter distance a(1-e) = 1/2 and
1/2 + tolC8; the observed reference value 0.500003 lies in this band. -/
theorem kepler_min_distance_pericenter (advs : List Adv) (s : Simulation)
    (p : Particle) (vs : List Vec3)
    (hp : s.particles[1]? = some p)
    (hm : p.params.min_distance_sq = some 25)
    (hobs : observations advs s 1 = vs.map some)
    (hell : ∀ v ∈ vs, onKeplerEllipse v)
    (hnear : ∃ v ∈ vs, v.normSq ≤ (1/2 + tolC8) ^ 2) :
    ∃ p' mSq, (integrateRun advs s).particles[1]? = some p' ∧
      p'.params.min_distance_sq = some mSq ∧
      (1/2 : ℝ) ≤ Real.sqrt ((mSq : ℚ) : ℝ) ∧
      Real.sqrt ((mSq : ℚ) : ℝ) ≤ 1/2 + ((tolC8 : ℚ) : ℝ) := by
  obtain ⟨p', hp', hm'⟩ := run_minSq_eq_foldl advs s 1 p 25 vs hp hm hobs
  refine ⟨p', (vs.map Vec3.normSq).foldl min 25, hp', hm', ?_, ?_⟩
  · have hlow : 1/4 ≤ (vs.map Vec3.normSq).foldl min 25 := by
      refine le_foldl_min _ _ _ (by norm_num) ?_
      intro d hd
      obtain ⟨v, hv, rfl⟩ := List.mem_map.mp hd
      exact ellipse_distSq_lower v (hell v hv)
    have h1 : ((1/4 : ℚ) : ℝ) ≤
        (((vs.map Vec3.normSq).foldl min 25 : ℚ) : ℝ) := by
      exact_mod_cast hlow
    have h3 := Real.sqrt_le_sqrt h1
    rw [show ((1/4 : ℚ) : ℝ) = (1/2 : ℝ) ^ 2 by norm_num,
      Real.sqrt_sq (by norm_num : (0:ℝ) ≤ (1/2:ℝ))] at h3
    exact h3
  · have hhigh : (vs.map Vec3.normSq).foldl min 25 ≤ (1/2 + tolC8) ^ 2 := by
      obtain ⟨v, hv, hvle⟩ := hnear
      exact le_trans (foldl_min_le_mem _ _ _ (List.mem_map_of_mem _ hv)) hvle
    have h2 : (((vs.map Vec3.normSq).foldl min 25 : ℚ) : ℝ) ≤
        (((1/2 + tolC8) ^ 2 : ℚ) : ℝ) := by
      exact_mod_cast hhigh
    have h3 := Real.sqrt_le_sqrt h2
    rw [show ((((1/2 + tolC8) ^ 2 : ℚ)) : ℝ) =
        (1/2 + ((tolC8 : ℚ) : ℝ)) ^ 2 by push_cast; ring,
      Real.sqrt_sq (by norm_num [tolC8] :
        (0:ℝ) ≤ 1/2 + ((tolC8 : ℚ) : ℝ))] at h3
    exact h3

theorem obsC8 :
    observations [advC8] simC8 1 = [(⟨1/2, 0, 0⟩ : Vec3)].map some := by
  show [relPosOf (applyAdvance advC8 simC8) 1] = _
  norm_num [relPosOf, applyAdvance, applyAdvanceAux, advP, advC8, simC8,
    planetC8, sunW, referenceOf, Vec3.sub]

/-- Witness for C8 at a concrete input: a one-sub-step exact-Kepler run
from apocenter to pericenter. -/
theorem kepler_min_distance_pericenter_witness :
    simC8.particles[1]? = some planetC8 ∧
    planetC8.params.min_distance_sq = some 25 ∧
    observations [advC8] simC8 1 = [(⟨1/2, 0, 0⟩ : Vec3)].map some ∧
    (∀ v ∈ [(⟨1/2, 0, 0⟩ : Vec3)], onKeplerEllipse v) ∧
    (∃ v ∈ [(⟨1/2, 0, 0⟩ : Vec3)], v.normSq ≤ (1/2 + tolC8) ^ 2) ∧
    (∃ p' mSq, (integrateRun [advC8] simC8).particles[1]? = some p' ∧
      p'.params.min_distance_sq = some mSq ∧
      (1/2 : ℝ) ≤ Real.sqrt ((mSq : ℚ) : ℝ) ∧
      Real.sqrt ((mSq : ℚ) : ℝ) ≤ 1/2 + ((tolC8 : ℚ) : ℝ)) :=
  ⟨by rfl, by rfl, obsC8,
    by
      intro v hv
      rw [List.mem_singleton.mp hv]
      constructor <;> norm_num [onKeplerEllipse],
    ⟨⟨1/2, 0, 0⟩, List.mem_singleton.mpr rfl,
      by norm_num [Vec3.normSq, tolC8]⟩,
    kepler_min_distance_pericenter [advC8] simC8 planetC8
      [(⟨1/2, 0, 0⟩ : Vec3)] (by rfl) (by rfl) obsC8
      (by
        intro v hv
        rw [List.mem_singleton.mp hv]
        constructor <;> norm_num [onKeplerEllipse])
      ⟨⟨1/2, 0, 0⟩, List.mem_singleton.mpr rfl,
        by norm_num [Vec3.normSq, tolC8]⟩⟩

theorem setFromL_getElem? (h : Nat) :
    ∀ (i : Nat) (l : List Particle) (j : Nat),
      (setFromL h i l)[j]? =
        if j = i then (l[j]?).map (addFrom h) else l[j]?
  | i, [], j => by cases i <;> simp [setFromL]
  | 0, p :: rest, 0 => by simp [setFromL, addFrom]
  | 0, p :: rest, Nat.succ j => by simp [setFromL]
  | Nat.succ n, p :: rest, 0 => by simp [setFromL]
  | Nat.succ n, p :: rest, Nat.succ j => by
      rw [show setFromL h (Nat.succ n) (p :: rest) =
        p :: setFromL h n rest from rfl]
      simp only [List.getElem?_cons_succ, setFromL_getElem? h n rest j,
        Nat.succ_eq_add_one]
      by_cases hji : j = n
      · rw [if_pos hji, if_pos (by omega : j + 1 = n + 1)]
      · rw [if_neg hji, if_neg (by omega : ¬ j + 1 = n + 1)]

theorem advP_addFrom (f : Vec3 × Vec3 → Vec3 × Vec3) (h : Nat)
    (p : Particle) : advP f (addFrom h p) = addFrom h (advP f p) := rfl

theorem applyAdvanceAux_setFromL (a : Adv) (h : Nat) :
    ∀ (l : List Particle) (k i : Nat),
      applyAdvanceAux a k (setFromL h i l) =
        setFromL h i (applyAdvanceAux a k l)
  | [], _, i => by cases i <;> rfl
  | p :: rest, k, 0 => rfl
  | p :: rest, k, Nat.succ n => by
      show advP (a k) p :: applyAdvanceAux a (k + 1) (setFromL h n rest) =
        advP (a k) p :: setFromL h n (applyAdvanceAux a (k + 1) rest)
      rw [applyAdvanceAux_setFromL a h rest (k + 1) n]

theorem find?_setFromL_refData (h₀ h : Nat) :
    ∀ (i : Nat) (l : List Particle),
      ((setFromL h₀ i l).find? (fun q => q.hash == h)).map refData =
        (l.find? (fun q => q.hash == h)).map refData
  | i, [] => by cases i <;> rfl
  | 0, p :: rest => by
      show ((addFrom h₀ p :: rest).find? (fun q => q.hash == h)).map refData
        = ((p :: rest).find? (fun q => q.hash == h)).map refData
      by_cases hb : (p.hash == h) = true
      · rw [@List.find?_cons_of_pos _ (fun q => q.hash == h) (addFrom h₀ p)
            rest hb,
          @List.find?_cons_of_pos _ (fun q => q.hash == h) p rest hb]
        rfl
      · rw [@List.find?_cons_of_neg _ (fun q => q.hash == h) (addFrom h₀ p)
            rest hb,
          @List.find?_cons_of_neg _ (fun q => q.hash == h) p rest hb]
  | Nat.succ n, p :: rest => by
      show ((p :: setFromL h₀ n rest).find? (fun q => q.hash == h)).map
          refData = ((p :: rest).find? (fun q => q.hash == h)).map refData
      by_cases hb : (p.hash == h) = true
      · rw [@List.find?_cons_of_pos _ (fun q => q.hash == h) p
            (setFromL h₀ n rest) hb,
          @List.find?_cons_of_pos _ (fun q => q.hash == h) p rest hb]
      · rw [@List.find?_cons_of_neg _ (fun q => q.hash == h) p
            (setFromL h₀ n rest) hb,
          @List.find?_cons_of_neg _ (fun q => q.hash == h) p rest hb]
        exact find?_setFromL_refData h₀ h n rest

theorem head?_setFromL_refData (h₀ : Nat) (i : Nat) (l : List Particle) :
    ((setFromL h₀ i l).head?).map refData = (l.head?).map refData := by
  cases l with
  | nil => cases i <;> rfl
  | cons p rest => cases i <;> rfl

theorem referenceOf_setFrom_proj (s : Simulation) (h₀ : Nat) (i : Nat)
    (p : Particle) :
    (referenceOf ⟨setFromL h₀ i s.particles⟩ p).map refData =
      (referenceOf s p).map refData := by
  unfold referenceOf
  cases p.params.min_distance_from with
  | none => exact head?_setFromL_refData h₀ i s.particles
  | some h => exact find?_setFromL_refData h₀ h i s.particles

theorem find?_head_of_hash (l : List Particle) (prim : Particle) (h₀ : Nat)
    (hh : l.head? = some prim) (hhash : prim.hash = h₀) :
    l.find? (fun q => q.hash == h₀) = some prim := by
  cases l with
  | nil => cases hh
  | cons p rest =>
      have hp : p = prim := by injection hh
      subst hp
      subst hhash
      rw [@List.find?_cons_of_pos _ (fun q => q.hash == p.hash) p rest
        (beq_self_eq_true p.hash)]

theorem trackParticle_proj_congr (s₁ s₂ : Simulation) (p : Particle)
    (h : (referenceOf s₁ p).map refData = (referenceOf s₂ p).map refData) :
    trackParticle s₁ p = trackParticle s₂ p := by
  cases hm : p.params.min_distance_sq with
  | none =>
      rw [trackParticle_untracked _ _ hm, trackParticle_untracked _ _ hm]
  | some mSq =>
      cases hr2 : referenceOf s₂ p with
      | none =>
          rw [hr2] at h
          have hr1 : referenceOf s₁ p = none := by
            cases hq : referenceOf s₁ p with
            | none => rfl
            | some r =>
                rw [hq] at h
                simp at h
          rw [trackParticle_noref _ _ hr1, trackParticle_noref _ _ hr2]
      | some ref₂ =>
          rw [hr2] at h
          cases hr1 : referenceOf s₁ p with
          | none =>
              rw [hr1] at h
              simp at h
          | some ref₁ =>
              rw [hr1] at h
              simp only [Option.map_some'] at h
              have hD : refData ref₁ = refData ref₂ := Option.some.inj h
              have hpos : ref₁.pos = ref₂.pos :=
                congrArg (fun t => t.2.1) hD
              have hvel : ref₁.vel = ref₂.vel :=
                congrArg (fun t => t.2.2.1) hD
              have hmm : ref₁.m = ref₂.m :=
                congrArg (fun t => t.2.2.2) hD
              rw [trackParticle_tracked _ _ mSq ref₁ hm hr1,
                trackParticle_tracked _ _ mSq ref₂ hm hr2, hpos, hvel, hmm]

theorem trackParticle_addFrom (s₁ s₂ : Simulation) (p : Particle) (h₀ : Nat)
    (href : (referenceOf s₁ (addFrom h₀ p)).map refData =
      (referenceOf s₂ p).map refData) :
    trackParticle s₁ (addFrom h₀ p) = addFrom h₀ (trackParticle s₂ p) := by
  cases hm : p.params.min_distance_sq with
  | none =>
      have hm' : (addFrom h₀ p).params.min_distance_sq = none := hm
      rw [trackParticle_untracked _ _ hm', trackParticle_untracked _ _ hm]
  | some mSq =>
      have hm' : (addFrom h₀ p).params.min_distance_sq = some mSq := hm
      cases hr2 : referenceOf s₂ p with
      | none =>
          rw [hr2] at href
          have hr1 : referenceOf s₁ (addFrom h₀ p) = none := by
            cases hq : referenceOf s₁ (addFrom h₀ p) with
            | none => rfl
            | some r =>
                rw [hq] at href
                simp at href
          rw [trackParticle_noref _ _ hr1, trackParticle_noref _ _ hr2]
      | some ref₂ =>
          rw [hr2] at href
          cases hr1 : referenceOf s₁ (addFrom h₀ p) with
          | none =>
              rw [hr1] at href
              simp at href
          | some ref₁ =>
              rw [hr1] at href
              simp only [Option.map_some'] at href
              have hD : refData ref₁ = refData ref₂ :=
                Option.some.inj href
              have hpos : ref₁.pos = ref₂.pos :=
                congrArg (fun t => t.2.1) hD
              have hvel : ref₁.vel = ref₂.vel :=
                congrArg (fun t => t.2.2.1) hD
              have hmm : ref₁.m = ref₂.m :=
                congrArg (fun t => t.2.2.2) hD
              rw [trackParticle_tracked _ _ mSq ref₁ hm' hr1,
                trackParticle_tracked _ _ mSq ref₂ hm hr2,
                show (addFrom h₀ p).pos = p.pos from rfl,
                show (addFrom h₀ p).vel = p.vel from rfl,
                show (addFrom h₀ p).m = p.m from rfl, hpos, hvel, hmm]
              by_cases hd : distSq p.pos ref₂.pos < mSq
              · rw [if_pos hd, if_pos hd]
                rfl
              · rw [if_neg hd, if_neg hd]

theorem trackerPass_setFrom (s : Simulation) (h₀ : Nat) (i : Nat)
    (prim : Particle)
    (hhead : s.particles.head? = some prim) (hh : prim.hash = h₀)
    (hfrom : ∀ p, s.particles[i]? = some p →
      p.params.min_distance_from = none) :
    trackerPass ⟨setFromL h₀ i s.particles⟩ =
      ⟨setFromL h₀ i (trackerPass s).particles⟩ := by
  show Simulation.mk
      ((setFromL h₀ i s.particles).map
        (trackParticle ⟨setFromL h₀ i s.particles⟩)) =
    Simulation.mk (setFromL h₀ i (s.particles.map (trackParticle s)))
  congr 1
  apply List.ext_getElem?
  intro j
  rw [List.getElem?_map, setFromL_getElem?, setFromL_getElem?,
    List.getElem?_map]
  by_cases hji : j = i
  · rw [if_pos hji, if_pos hji]
    cases hpj : s.particles[j]? with
    | none => rfl
    | some p =>
        simp only [Option.map_some']
        subst hji
        have hfromp := hfrom p hpj
        congr 1
        apply trackParticle_addFrom _ _ p h₀
        have h1 : (addFrom h₀ p).params.min_distance_from = some h₀ := rfl
        rw [show referenceOf ⟨setFromL h₀ j s.particles⟩ (addFrom h₀ p) =
            (setFromL h₀ j s.particles).find? (fun q => q.hash == h₀) by
          unfold referenceOf
          rw [h1]]
        rw [show referenceOf s p = s.particles.head? by
          unfold referenceOf
          rw [hfromp], hhead]
        rw [find?_setFromL_refData,
          find?_head_of_hash s.particles prim h₀ hhead hh]
  · rw [if_neg hji, if_neg hji]
    cases hpj : s.particles[j]? with
    | none => rfl
    | some p =>
        simp only [Option.map_some']
        congr 1
        exact trackParticle_proj_congr _ _ p
          (referenceOf_setFrom_proj s h₀ i p)

theorem applyAdvance_setFrom (a : Adv) (h₀ i : Nat) (s : Simulation) :
    applyAdvance a ⟨setFromL h₀ i s.particles⟩ =
      ⟨setFromL h₀ i (applyAdvance a s).particles⟩ := by
  show Simulation.mk (applyAdvanceAux a 0 (setFromL h₀ i s.particles)) = _
  rw [applyAdvanceAux_setFromL]
  rfl

theorem applyAdvance_head? (a : Adv) (s : Simulation) :
    (applyAdvance a s).particles.head? =
      (s.particles.head?).map (advP (a 0)) := by
  rw [List.head?_eq_getElem?, List.head?_eq_getElem?,
    applyAdvance_getElem?]

theorem subStep_setFrom (a : Adv) (s : Simulation) (h₀ i : Nat)
    (prim : Particle)
    (hhead : s.particles.head? = some prim) (hh : prim.hash = h₀)
    (hfrom : ∀ p, s.particles[i]? = some p →
      p.params.min_distance_from = none) :
    subStep a ⟨setFromL h₀ i s.particles⟩ =
      ⟨setFromL h₀ i (subStep a s).particles⟩ := by
  unfold subStep
  rw [applyAdvance_setFrom]
  apply trackerPass_setFrom (applyAdvance a s) h₀ i (advP (a 0) prim)
  · rw [applyAdvance_head?, hhead]
    rfl
  · exact hh
  · intro q hq
    rw [applyAdvance_getElem?] at hq
    cases hp : s.particles[i]? with
    | none =>
        rw [hp] at hq
        cases hq
    | some p =>
        rw [hp] at hq
        simp only [Option.map_some'] at hq
        have : q = advP (a i) p := (Option.some.inj hq).symm
        subst this
        exact hfrom p hp

theorem subStep_headHash (a : Adv) (s : Simulation) :
    ((subStep a s).particles.head?).map Particle.hash =
      (s.particles.head?).map Particle.hash := by
  rw [List.head?_eq_getElem?, List.head?_eq_getElem?, subStep_getElem?]
  cases hp : s.particles[0]? with
  | none => rfl
  | some p =>
      simp only [Option.map_some']
      exact congrArg some
        ((trackParticle_preserves (applyAdvance a s) (advP (a 0) p)).1)

theorem subStep_from (a : Adv) (s : Simulation) (i : Nat) :
    ((subStep a s).particles[i]?).map
        (fun p => p.params.min_distance_from) =
      (s.particles[i]?).map (fun p => p.params.min_distance_from) := by
  rw [subStep_getElem?]
  cases hp : s.particles[i]? with
  | none => rfl
  | some p =>
      simp only [Option.map_some']
      exact congrArg some
        ((trackParticle_preserves (applyAdvance a s) (advP (a i) p)).2.2.2.2)

theorem integrateRun_setFrom (advs : List Adv) (s : Simulation)
    (h₀ i : Nat) (prim : Particle)
    (hhead : s.particles.head? = some prim) (hh : prim.hash = h₀)
    (hfrom : ∀ p, s.particles[i]? = some p →
      p.params.min_distance_from = none) :
    integrateRun advs ⟨setFromL h₀ i s.particles⟩ =
      ⟨setFromL h₀ i (integrateRun advs s).particles⟩ := by
  induction advs generalizing s prim with
  | nil => rfl
  | cons a advs ih =>
      rw [integrateRun_cons, integrateRun_cons,
        subStep_setFrom a s h₀ i prim hhead hh hfrom]
      have hhh := subStep_headHash a s
      rw [hhead] at hhh
      cases hh2 : (subStep a s).particles.head? with
      | none =>
          rw [hh2] at hhh
          cases hhh
      | some prim' =>
          rw [hh2] at hhh
          simp only [Option.map_some'] at hhh
          apply ih (subStep a s) prim' hh2
          · rw [Option.some.inj hhh]
            exact hh
          · intro q hq
            have hf := subStep_from a s i
            rw [hq] at hf
            cases hp : s.particles[i]? with
            | none =>
                rw [hp] at hf
                cases hf
            | some p =>
                rw [hp] at hf
                simp only [Option.map_some'] at hf
                rw [Option.some.inj hf]
                exact hfrom p hp

/-- C10: explicitly setting `min_distance_from` to the hash of the primary
body at index 0 is behaviorally equivalent to leaving it unset: every
integration run produces particles with identical `min_distance` (stored
square) and `min_distance_orbit` values at every index under the two
configurations. -/
theorem explicit_primary_reference_equivalent (advs : List Adv)
    (s : Simulation) (i : Nat) (prim : Particle)
    (hhead : s.particles.head? = some prim)
    (hfrom : ∀ p, s.particles[i]? = some p →
      p.params.min_distance_from = none) :
    ∀ j : Nat, ((integrateRun advs
          (setMinDistanceFrom prim.hash i s)).particles[j]?).map
        (fun q => (q.params.min_distance_sq, q.params.min_distance_orbit)) =
      ((integrateRun advs s).particles[j]?).map
        (fun q => (q.params.min_distance_sq,
          q.params.min_distance_orbit)) := by
  intro j
  have hcomm :=
    integrateRun_setFrom advs s prim.hash i prim hhead rfl hfrom
  rw [show setMinDistanceFrom prim.hash i s =
    Simulation.mk (setFromL prim.hash i s.particles) from rfl, hcomm]
  show ((setFromL prim.hash i
      (integrateRun advs s).particles)[j]?).map _ = _
  rw [setFromL_getElem?]
  by_cases hji : j = i
  · rw [if_pos hji]
    cases hq : (integrateRun advs s).particles[j]? with
    | none => rfl
    | some q => rfl
  · rw [if_neg hji]

/-- Witness for C10 at a concrete input. -/
theorem explicit_primary_reference_equivalent_witness :
    simW.particles.head? = some sunW ∧
    (∀ p, simW.particles[1]? = some p →
      p.params.min_distance_from = none) ∧
    (∀ j : Nat, ((integrateRun [idAdv]
          (setMinDistanceFrom sunW.hash 1 simW)).particles[j]?).map
        (fun q => (q.params.min_distance_sq, q.params.min_distance_orbit)) =
      ((integrateRun [idAdv] simW).particles[j]?).map
        (fun q => (q.params.min_distance_sq,
          q.params.min_distance_orbit))) :=
  ⟨by decide,
    fun p hp => by
      rw [show simW.particles[1]? = some planetW from rfl] at hp
      rw [← Option.some.inj hp]
      rfl,
    explicit_primary_reference_equivalent [idAdv] simW 1 sunW (by decide)
      (fun p hp => by
        rw [show simW.particles[1]? = some planetW from rfl] at hp
        rw [← Option.some.inj hp]
        rfl)⟩

end TrackMinDist

